import Mathlib

/-!
# LightNVR stream recording engine — verification of spec claims

Shallow embedding of the parts of the LightNVR sources that the claims
concern:

* the MP4 writer registry (`register_mp4_writer_for_stream`,
  `get_mp4_writer_for_stream`, `unregister_mp4_writer_for_stream` from the
  mp4-recording source file),
* the stream-configuration catalog operations (`add_stream_config`,
  `get_stream_config_by_name`, `is_stream_eligible_for_live_streaming`
  from `src/database/db_streams.c`),
* the timeline manifest builder and time-parameter parsing
  (`create_timeline_manifest`, `mg_handle_get_timeline_segments`),
* the playback request-active table and playback task
  (`src/web/recordings_playback_task.c`).

C pointers to writer handles are modelled as `Nat` identifiers (`none`
standing for NULL in the registry array); the fixed-size C arrays indexed
by `MAX_STREAMS` are modelled as lists whose length is the array size;
machine integers are modelled as `Int`/`Nat` (the values involved — slot
counts, seconds, frame counts — are far from any overflow boundary).
-/

namespace LightNVR

/-- A live MP4 writer handle (`mp4_writer_t *`); values are opaque
identifiers for distinct non-NULL pointers. -/
abbrev Writer := Nat

/-- The global registry state of the mp4-recording source file:
`mp4_writers[MAX_STREAMS]` (NULL = `none`), the parallel name array
`mp4_writer_stream_names[MAX_STREAMS]` (empty C string = `""`), and for
each slot whether `frame_buffers[j].frames` is non-NULL. The three lists
have length `MAX_STREAMS`. -/
structure RegState where
  writers : List (Option Writer)
  names : List String
  buffers : List Bool
deriving Repr, DecidableEq

/-- Result of the slot-search loop at the top of
`register_mp4_writer_for_stream`: the loop walks `i = 0, 1, …` and stops
at the first slot with `mp4_writers[i] == NULL` (`emptySlot i`), or takes
the replace branch at the first slot whose name matches (`matchSlot i`);
if it falls off the end, no slot is available (`noSlot`). -/
inductive ScanRes where
  | noSlot
  | emptySlot (i : Nat)
  | matchSlot (i : Nat)
deriving Repr, DecidableEq

/-- The slot-search loop of `register_mp4_writer_for_stream`: the first
NULL slot wins and breaks the loop; otherwise the first slot with a
non-empty matching name takes the replace branch. -/
def scanSlots (name : String) : List (Option Writer) → List String → ScanRes
  | [], _ => .noSlot
  | _ :: _, [] => .noSlot
  | none :: _, _ :: _ => .emptySlot 0
  | some _ :: ws, n :: ns =>
    if n ≠ "" ∧ n = name then .matchSlot 0
    else
      match scanSlots name ws ns with
      | .noSlot => .noSlot
      | .emptySlot i => .emptySlot (i + 1)
      | .matchSlot i => .matchSlot (i + 1)

/-- The frame-buffer search loop used both in the replace branch of
`register_mp4_writer_for_stream` and in
`unregister_mp4_writer_for_stream`: first index `j` with
`frame_buffers[j].frames && mp4_writer_stream_names[j][0] != 0 &&
strcmp(mp4_writer_stream_names[j], name) == 0`. -/
def findBufferIdx (name : String) : List Bool → List String → Option Nat
  | [], _ => none
  | _ :: _, [] => none
  | b :: bs, n :: ns =>
    if b ∧ n ≠ "" ∧ n = name then some 0
    else (findBufferIdx name bs ns).map (· + 1)

/-- The writer search loop of `get_mp4_writer_for_stream` and
`unregister_mp4_writer_for_stream`: first index with a non-NULL writer
and a non-empty matching name. -/
def findWriterIdx (name : String) : List (Option Writer) → List String → Option Nat
  | [], _ => none
  | _ :: _, [] => none
  | w :: ws, n :: ns =>
    if w.isSome ∧ n ≠ "" ∧ n = name then some 0
    else (findWriterIdx name ws ns).map (· + 1)

/-- The subset of `stream_config_t` persisted in the `streams` table and
read by the functions under verification. The REAL column
`detection_threshold` is modelled at fixed precision (thousandths) to
keep the embedding exact; none of the claims computes with it. -/
structure StreamConfig where
  name : String
  url : String
  enabled : Bool
  streaming_enabled : Bool
  width : Int
  height : Int
  fps : Int
  codec : String
  priority : Int
  record : Bool
  segment_duration : Int
  detection_based_recording : Bool
  detection_model : String
  detection_threshold_millis : Int
  detection_interval : Int
  pre_detection_buffer : Int
  post_detection_buffer : Int
  protocol : Int
  is_onvif : Bool
  record_audio : Bool
deriving Repr, DecidableEq

/-- A concrete stream configuration used by the concrete-input
theorems: stream cam, 5 seconds of pre-roll at 10 fps. -/
def sampleConfig : StreamConfig :=
  ⟨"cam", "rtsp://example", true, true, 640, 480, 10, "h264", 0, true, 60,
   false, "", 500, 10, 5, 3, 0, false, false⟩

/-- Everything `register_mp4_writer_for_stream` does besides returning an
`int`: the new registry state, the writers it closed itself via
`mp4_writer_close`, the capacity it passed to `init_frame_buffer` (if the
fresh-registration path created a pre-buffer), and the buffer index it
passed to `flush_frame_buffer` (if the replace path flushed). -/
structure RegisterResult where
  st : RegState
  ret : Int
  closed : List Writer
  createdCap : Option Int
  flushedIdx : Option Nat
deriving Repr, DecidableEq

/-- Embedding of `register_mp4_writer_for_stream(stream_name, writer)`
from the mp4-recording source file. `cfg` is the result of the external
`get_stream_by_name` / `get_stream_config` lookup for this stream
(`none` when the stream handle or config is unavailable);
`maxPrebufferFrames` is the compile-time constant `MAX_PREBUFFER_FRAMES`.
`init_frame_buffer` is not under `src/`; modelled from the spec as
allocating the stream's ring with the requested capacity, in the slot
whose registry name matches the stream (the association every lookup loop
in this file assumes). -/
def register_mp4_writer_for_stream (cfg : Option StreamConfig)
    (maxPrebufferFrames : Int) (st : RegState) (name : String) (w : Writer) :
    RegisterResult :=
  match scanSlots name st.writers st.names with
  | .matchSlot i =>
    -- replace branch: stash the old writer, overwrite the slot, optionally
    -- flush the stream's existing pre-buffer into the new writer, then
    -- close the old writer; the name array is left as it is.
    let old :=
      match st.writers.get? i with
      | some (some ow) => [ow]
      | _ => []
    let doFlush : Bool :=
      match cfg with
      | some c =>
        decide (0 < c.pre_detection_buffer) &&
          decide (0 < c.pre_detection_buffer * c.fps)
      | none => false
    let fl := if doFlush then findBufferIdx name st.buffers st.names else none
    { st := { st with writers := st.writers.set i (some w) }, ret := 0,
      closed := old, createdCap := none, flushedIdx := fl }
  | .emptySlot i =>
    -- fresh registration: take the slot, record the name, then create the
    -- pre-buffer when the config asks for one.
    let writers' := st.writers.set i (some w)
    let names' := st.names.set i name
    match cfg with
    | some c =>
      if 0 < c.pre_detection_buffer then
        let capacity := c.pre_detection_buffer * c.fps
        if 0 < capacity then
          let capClamped :=
            if capacity < maxPrebufferFrames then capacity else maxPrebufferFrames
          { st := ⟨writers', names', st.buffers.set i true⟩, ret := 0,
            closed := [], createdCap := some capClamped, flushedIdx := none }
        else
          { st := ⟨writers', names', st.buffers⟩, ret := 0, closed := [],
            createdCap := none, flushedIdx := none }
      else
        { st := ⟨writers', names', st.buffers⟩, ret := 0, closed := [],
          createdCap := none, flushedIdx := none }
    | none =>
      { st := ⟨writers', names', st.buffers⟩, ret := 0, closed := [],
        createdCap := none, flushedIdx := none }
  | .noSlot => { st := st, ret := -1, closed := [], createdCap := none,
                 flushedIdx := none }

/-- Embedding of `get_mp4_writer_for_stream(stream_name)`: the writer of the first
slot with a non-NULL writer and a matching non-empty name, NULL
otherwise. -/
def get_mp4_writer_for_stream (st : RegState) (name : String) : Option Writer :=
  if name = "" then none
  else
    match findWriterIdx name st.writers st.names with
    | some i =>
      match st.writers.get? i with
      | some (some w) => some w
      | _ => none
    | none => none

/-- Result of `unregister_mp4_writer_for_stream`: the new registry state
and the buffer index passed to `free_frame_buffer`, if any.
`free_frame_buffer` is not under `src/`; modelled from the spec as
destroying (freeing) the ring at the given index. -/
structure UnregisterResult where
  st : RegState
  freedIdx : Option Nat
deriving Repr, DecidableEq

/-- Embedding of `unregister_mp4_writer_for_stream(stream_name)`: find the stream's
slot, clear the writer pointer and the name, then search for the
stream's frame buffer — with the search running over the *already
cleared* name array, exactly as the source does — and free it if found.
The writer itself is not closed. -/
def unregister_mp4_writer_for_stream (st : RegState) (name : String) :
    UnregisterResult :=
  if name = "" then ⟨st, none⟩
  else
    match findWriterIdx name st.writers st.names with
    | some i =>
      let writers' := st.writers.set i none
      let names' := st.names.set i ""
      match findBufferIdx name st.buffers names' with
      | some j => ⟨⟨writers', names', st.buffers.set j false⟩, some j⟩
      | none => ⟨⟨writers', names', st.buffers⟩, none⟩
    | none => ⟨st, none⟩

/-- The live writer handles the registry currently holds for `name`:
writers of every slot whose writer is non-NULL and whose name matches. -/
def slotsForAux (name : String) : List (Option Writer) → List String → List Writer
  | [], _ => []
  | _ :: _, [] => []
  | none :: ws, _ :: ns => slotsForAux name ws ns
  | some w :: ws, n :: ns =>
    if n ≠ "" ∧ n = name then w :: slotsForAux name ws ns
    else slotsForAux name ws ns

/-- All live writers the registry holds for a stream name. -/
def slotsFor (name : String) (st : RegState) : List Writer :=
  slotsForAux name st.writers st.names

/-!
## Catalog store: the streams table (`src/database/db_streams.c`)
-/

/-- The `streams` table: rows of `(id, config)` with the `AUTOINCREMENT`
counter that `sqlite3_last_insert_rowid` reports for the next insert. -/
structure StreamsTable where
  rows : List (Nat × StreamConfig)
  nextId : Nat
deriving Repr, DecidableEq

/-- Embedding of `add_stream_config(stream)` from
`src/database/db_streams.c`. The function first runs
SELECT id FROM streams WHERE name = ? AND enabled = 0 and, if a row is
found, updates every column of that row except `name` from the new
config and returns the existing id; otherwise it INSERTs a fresh row —
which hits the UNIQUE constraint on `name` (returning 0, the failure
value) whenever a row with that name already exists. -/
def add_stream_config (tbl : StreamsTable) (c : StreamConfig) :
    Nat × StreamsTable :=
  match tbl.rows.find? (fun r => r.2.name == c.name && !r.2.enabled) with
  | some (rid, old) =>
    (rid,
     { tbl with
        rows := tbl.rows.map
          (fun r => if r.1 = rid then (rid, { c with name := old.name }) else r) })
  | none =>
    if tbl.rows.any (fun r => r.2.name == c.name) then
      (0, tbl)
    else
      (tbl.nextId, ⟨tbl.rows ++ [(tbl.nextId, c)], tbl.nextId + 1⟩)

/-- Embedding of `get_stream_config_by_name(name, stream)` (with all
schema columns present, as after migration): the first row whose name
matches, or failure. -/
def get_stream_config_by_name (tbl : StreamsTable) (name : String) :
    Option StreamConfig :=
  (tbl.rows.find? (fun r => r.2.name == name)).map (·.2)

/-- Embedding of `is_stream_eligible_for_live_streaming(stream_name)`:
-1 when the database handle or the name is NULL, otherwise 1 exactly for
an existing row with both `enabled` and `streaming_enabled` set, 0 for a
row without both flags and 0 when no row matches. -/
def is_stream_eligible_for_live_streaming (db : Option StreamsTable)
    (name : Option String) : Int :=
  match db with
  | none => -1
  | some tbl =>
    match name with
    | none => -1
    | some s =>
      match tbl.rows.find? (fun r => r.2.name == s) with
      | some r => if r.2.enabled && r.2.streaming_enabled then 1 else 0
      | none => 0

/-!
## Timeline manifest builder and time-parameter parsing
-/

/-- The compile-time manifest cap `MAX_MANIFEST_SEGMENTS` of the timeline
source file. -/
def MAX_MANIFEST_SEGMENTS : Nat := 100

/-- One `timeline_segment_t` as filled by `get_timeline_segments`. -/
structure TimelineSegment where
  id : Nat
  stream_name : String
  file_path : String
  start_time : Int
  end_time : Int
  size_bytes : Int
  has_detection : Bool
deriving Repr, DecidableEq

/-- One media entry of an HLS playlist: an EXTINF duration line followed
by a URI line `/api/timeline/play?stream=…&start=…`. Times are whole
seconds, so the `difftime` doubles of the source are exact integers. -/
structure MediaEntry where
  extinf_duration : Int
  uri_stream : String
  uri_start : Int
deriving Repr, DecidableEq

/-- The content `create_timeline_manifest` writes to the `.m3u8` file,
with the fixed header lines abstracted into fields. -/
structure Manifest where
  version : Nat
  media_sequence : Nat
  allow_cache : Bool
  target_duration : Int
  entries : List MediaEntry
  end_list : Bool
deriving Repr, DecidableEq

/-- The maximum single-segment duration scan of
`create_timeline_manifest` (running value starts at 0). -/
def maxSegmentDuration (segs : List TimelineSegment) : Int :=
  segs.foldl (fun m s => max m (s.end_time - s.start_time)) 0

/-- Embedding of `create_timeline_manifest(segments, segment_count,
start_time, manifest_path)`: fails on an empty list, caps the count at
`MAX_MANIFEST_SEGMENTS`, writes the header with
`EXT-X-TARGETDURATION = max duration + 1`, then emits a single
EXTINF/URI pair for the whole timeline (the start-segment-index scan in
the source computes an index that no output line uses), and the ENDLIST
line. -/
def create_timeline_manifest (segments : List TimelineSegment)
    (start_time : Int) : Option Manifest :=
  match segments with
  | [] => none
  | s0 :: _ =>
    let segs := segments.take MAX_MANIFEST_SEGMENTS
    let maxDur := maxSegmentDuration segs
    some { version := 3, media_sequence := 0, allow_cache := true,
           target_duration := maxDur + 1,
           entries := [⟨maxDur, s0.stream_name, start_time⟩],
           end_list := true }

/-- Broken-down time as `strptime` with format `%Y-%m-%dT%H:%M:%S` fills
`struct tm`, normalised: full year, month 1–12, day of month. -/
structure TmRec where
  year : Int
  mon : Int
  mday : Int
  hour : Int
  minute : Int
  sec : Int
deriving Repr, DecidableEq

/-- Days since 1970-01-01 of a proleptic-Gregorian civil date (the
standard era-based algorithm). -/
def daysFromCivil (y m d : Int) : Int :=
  let y' := if m ≤ 2 then y - 1 else y
  let era := (if 0 ≤ y' then y' else y' - 399) / 400
  let yoe := y' - era * 400
  let doy := (153 * (if 2 < m then m - 3 else m + 9) + 2) / 5 + d - 1
  let doe := yoe * 365 + yoe / 4 - yoe / 100 + doy
  era * 146097 + doe - 719468

/-- Seconds since the UNIX epoch of a broken-down time read as UTC (what
`timegm` would return). -/
def utcEpochOfTm (t : TmRec) : Int :=
  86400 * daysFromCivil t.year t.mon t.mday +
    3600 * t.hour + 60 * t.minute + t.sec

/-- Modelled from libc: `mktime` interprets the broken-down time as
LOCAL time. For a server timezone at a fixed offset of `gmtoff` seconds
east of UTC (DST ignored, which is what `tm_isdst = -1` resolves to in a
zone without DST), the result is the UTC reading minus the offset. -/
def mktimeModel (gmtoff : Int) (t : TmRec) : Int :=
  utcEpochOfTm t - gmtoff

/-- Splitting of a character list at every occurrence of a separator. -/
def splitOnChar (sep : Char) : List Char → List (List Char)
  | [] => [[]]
  | c :: rest =>
    let r := splitOnChar sep rest
    if c = sep then [] :: r
    else
      match r with
      | [] => [[c]]
      | g :: gs => (c :: g) :: gs

/-- Reading of a non-empty run of decimal digits, as the numeric field
conversions of `strptime` read them. -/
def digitsToNatAux : Nat → List Char → Option Nat
  | acc, [] => some acc
  | acc, c :: rest =>
    if c.isDigit then digitsToNatAux (acc * 10 + (c.toNat - 48)) rest
    else none

/-- Reading of a decimal field; empty fields are rejected. -/
def digitsToNat? (cs : List Char) : Option Nat :=
  match cs with
  | [] => none
  | _ :: _ => digitsToNatAux 0 cs

/-- Parsing of a `YYYY-MM-DDTHH:MM:SS` string into broken-down time, as
`strptime` with the first format the handler tries; out-of-range fields
are rejected as `strptime` rejects them. -/
def parseTm (s : String) : Option TmRec :=
  match splitOnChar 'T' s.data with
  | [d, t] =>
    match splitOnChar '-' d, splitOnChar ':' t with
    | [ys, ms, ds], [hs, mins, ss] => do
      let y ← digitsToNat? ys
      let m ← digitsToNat? ms
      let dd ← digitsToNat? ds
      let h ← digitsToNat? hs
      let mi ← digitsToNat? mins
      let se ← digitsToNat? ss
      if 1 ≤ m ∧ m ≤ 12 ∧ 1 ≤ dd ∧ dd ≤ 31 ∧ h ≤ 23 ∧ mi ≤ 59 ∧ se ≤ 60 then
        some ⟨(y : Int), (m : Int), (dd : Int), (h : Int), (mi : Int), (se : Int)⟩
      else none
    | _, _ => none
  | _ => none

/-- The wall-clock-string conversion `mg_handle_get_timeline_segments`
performs on its `start` and `end` query parameters: `strptime` into a
`struct tm`, `tm_isdst = -1`, then `mktime` — i.e. the string is read as
server-local time. -/
def timeline_parse_time_param (gmtoff : Int) (s : String) : Option Int :=
  (parseTm s).map (mktimeModel gmtoff)

/-- Modelled from the spec: the UTC reading of the wall-clock string —
seconds since the UNIX epoch with the string interpreted as UTC,
independent of the server timezone. -/
def specUtcEpochOfString (s : String) : Option Int :=
  (parseTm s).map utcEpochOfTm

/-!
## Playback request-active table and playback task
(`src/web/recordings_playback_task.c`)
-/

/-- The table size `MAX_ACTIVE_REQUESTS`. -/
def MAX_ACTIVE_REQUESTS : Nat := 32

/-- One entry of `g_active_requests`. -/
structure ActiveSlot where
  id : Nat
  active : Bool
deriving Repr, DecidableEq

/-- The zeroed table `init_active_requests` produces. -/
def init_active_requests : List ActiveSlot :=
  List.replicate MAX_ACTIVE_REQUESTS ⟨0, false⟩

/-- Embedding of `is_request_active(id)`: some slot holds `id` with the
active flag set. -/
def is_request_active (t : List ActiveSlot) (id : Nat) : Bool :=
  t.any (fun s => s.id == id && s.active)

/-- The free-slot scan of `mark_request_active`: overwrite the first
inactive slot with `(id, true)`; `none` when every slot is active. -/
def markActiveAux (id : Nat) : List ActiveSlot → Option (List ActiveSlot)
  | [] => none
  | s :: rest =>
    if !s.active then some (⟨id, true⟩ :: rest)
    else (markActiveAux id rest).map (s :: ·)

/-- Embedding of `mark_request_active(id)`: refuse (returning false,
table unchanged) when the id is already active, otherwise claim the
first free slot; false with the table unchanged when the table is
full. -/
def mark_request_active (t : List ActiveSlot) (id : Nat) :
    Bool × List ActiveSlot :=
  if is_request_active t id then (false, t)
  else
    match markActiveAux id t with
    | some t' => (true, t')
    | none => (false, t)

/-- Embedding of `mark_request_inactive(id)`: clear the active flag of
the first slot holding `id` active. -/
def mark_request_inactive (t : List ActiveSlot) (id : Nat) : List ActiveSlot :=
  match t with
  | [] => []
  | s :: rest =>
    if s.id == id && s.active then ⟨s.id, false⟩ :: rest
    else s :: mark_request_inactive rest id

/-- Ids of the active slots of the table. -/
def activeIds (t : List ActiveSlot) : List Nat :=
  (t.filter (·.active)).map (·.id)

/-- The C8 table invariant: no id appears in two active slots. -/
def dupFree (t : List ActiveSlot) : Prop := (activeIds t).Nodup

/-- One mutation of the active-requests table, as issued by
`mg_handle_play_recording` and the playback task. -/
inductive ReqOp where
  | markActive (id : Nat)
  | markInactive (id : Nat)
deriving Repr, DecidableEq

/-- Application of one table mutation. -/
def applyReqOp (t : List ActiveSlot) : ReqOp → List ActiveSlot
  | .markActive id => (mark_request_active t id).2
  | .markInactive id => mark_request_inactive t id

/-- Application of a sequence of table mutations, oldest first. -/
def applyReqOps (t : List ActiveSlot) (ops : List ReqOp) : List ActiveSlot :=
  ops.foldl applyReqOp t

/-- The catalog row `get_recording_metadata_by_id` fills when it
succeeds. Only the fields the playback task reads are modelled. -/
structure RecordingMeta where
  id : Nat
  stream_name : String
  file_path : String
deriving Repr, DecidableEq

/-- Environment a playback task runs against. `recordingRow` is modelled
from the spec: `get_recording_metadata_by_id` (not under `src/`) returns
the catalog row exactly when one with the requested id exists;
`fileOnDisk` is whether `stat` on the row path succeeds. -/
structure PlaybackEnv where
  connValid : Bool
  connClosing : Bool
  recordingRow : Option RecordingMeta
  fileOnDisk : Bool
deriving Repr, DecidableEq

/-- What the playback task sends on the connection. -/
inductive TaskResponse where
  | noResponse
  | notFound
  | serveFile (path : String)
deriving Repr, DecidableEq

/-- Embedding of `playback_recording_task_function`: abort silently on an
invalid or closing connection; 404 when the catalog row is missing; 404
when the file is missing on disk; otherwise hand the file to
`mg_http_serve_file`. Every path marks the request id inactive before
returning. -/
def playback_recording_task_function (env : PlaybackEnv)
    (t : List ActiveSlot) (id : Nat) : TaskResponse × List ActiveSlot :=
  if !env.connValid then (.noResponse, mark_request_inactive t id)
  else if env.connClosing then (.noResponse, mark_request_inactive t id)
  else
    match env.recordingRow with
    | none => (.notFound, mark_request_inactive t id)
    | some r =>
      if !env.fileOnDisk then (.notFound, mark_request_inactive t id)
      else (.serveFile r.file_path, mark_request_inactive t id)

/-- Outcome of the synchronous part of `mg_handle_play_recording`. -/
inductive PlayHandlerOutcome where
  | invalidPath
  | invalidId
  | alreadyProcessing
  | tooManyConcurrent
  | taskQueued
deriving Repr, DecidableEq

/-- Embedding of the head of `mg_handle_play_recording` up to queueing
the task: extract the id (400 on failure or id 0), reject with 429 when
the id is already active — before any catalog or file access — then mark
active (503 when the table is full) and queue the task. The
allocation-failure branches after the successful mark (which mark the
id inactive again) are outside the deduplication claim and elided. -/
def mg_handle_play_recording (t : List ActiveSlot) (pathOk : Bool)
    (id : Nat) : PlayHandlerOutcome × List ActiveSlot :=
  if !pathOk then (.invalidPath, t)
  else if id = 0 then (.invalidId, t)
  else if is_request_active t id then (.alreadyProcessing, t)
  else
    match mark_request_active t id with
    | (true, t') => (.taskQueued, t')
    | (false, _) => (.tooManyConcurrent, t)

/-!
## Helper lemmas: writer registry
-/

/-- Replacing the element just past a prefix. -/
theorem set_append_length {α : Type} (a : List α) (x y : α) (b : List α) :
    (a ++ x :: b).set a.length y = a ++ y :: b := by
  induction a with
  | nil => rfl
  | cons z a ih => simp [List.set, ih]

/-- Reading the element just past a prefix. -/
theorem get?_append_length {α : Type} (a : List α) (x : α) (b : List α) :
    (a ++ x :: b).get? a.length = some x := by
  induction a with
  | nil => rfl
  | cons z a ih => simpa using ih

/-- The slot-search loop lands on the matching entry when every earlier
slot is occupied by a different stream. -/
theorem scanSlots_prefix_match (s : String) (hs : s ≠ "")
    (a : List (Option Writer)) (p : List String)
    (w1 : Writer) (b : List (Option Writer)) (q : List String)
    (hlen : a.length = p.length)
    (ha : ∀ x ∈ a, x.isSome = true)
    (hp : ∀ n ∈ p, n ≠ s) :
    scanSlots s (a ++ some w1 :: b) (p ++ s :: q) = .matchSlot a.length := by
  induction a generalizing p with
  | nil =>
    cases p with
    | nil => simp [scanSlots, hs]
    | cons _ _ => simp at hlen
  | cons x a ih =>
    cases p with
    | nil => simp at hlen
    | cons n p =>
      have hx : x.isSome = true := ha x (List.mem_cons_self x a)
      obtain ⟨y, rfl⟩ := Option.isSome_iff_exists.mp hx
      have hn : n ≠ s := hp n (List.mem_cons_self n p)
      have hrec := ih p (by simpa using hlen)
        (fun z hz => ha z (List.mem_cons_of_mem _ hz))
        (fun z hz => hp z (List.mem_cons_of_mem _ hz))
      simp only [List.cons_append, scanSlots, List.append_eq]
      rw [if_neg (by simp [hn]), hrec]
      simp

/-- The registry holds no writer for a stream absent from the name
array. -/
theorem slotsForAux_nil_of_no_match (s : String) (b : List (Option Writer))
    (q : List String) (hq : ∀ n ∈ q, n ≠ s) : slotsForAux s b q = [] := by
  induction b generalizing q with
  | nil => simp [slotsForAux]
  | cons x b ih =>
    cases q with
    | nil => cases x <;> simp [slotsForAux]
    | cons n q =>
      have hn : n ≠ s := hq n (List.mem_cons_self n q)
      have hrec := ih q (fun z hz => hq z (List.mem_cons_of_mem _ hz))
      cases x with
      | none => simpa [slotsForAux] using hrec
      | some w =>
        simp only [slotsForAux]
        rw [if_neg (by simp [hn])]
        exact hrec

/-- Slots named by other streams contribute nothing to `slotsForAux`. -/
theorem slotsForAux_append_skip (s : String) (a : List (Option Writer))
    (p : List String) (l : List (Option Writer)) (m : List String)
    (hlen : a.length = p.length) (hp : ∀ n ∈ p, n ≠ s) :
    slotsForAux s (a ++ l) (p ++ m) = slotsForAux s l m := by
  induction a generalizing p with
  | nil =>
    cases p with
    | nil => rfl
    | cons _ _ => simp at hlen
  | cons x a ih =>
    cases p with
    | nil => simp at hlen
    | cons n p =>
      have hn : n ≠ s := hp n (List.mem_cons_self n p)
      have hrec := ih p (by simpa using hlen)
        (fun z hz => hp z (List.mem_cons_of_mem _ hz))
      cases x with
      | none => simpa [slotsForAux] using hrec
      | some w =>
        simp only [List.cons_append, slotsForAux]
        rw [if_neg (by simp [hn])]
        exact hrec

/-!
## Claim theorems: writer registry (C1, C3, C4, C5)
-/

/-- C1 (code bug exhibited): the registry does NOT keep at most one
writer per stream once an empty slot precedes the slot already holding
that stream. Starting from an empty two-slot registry: register stream
a with writer 1, register stream cam with writer 2, unregister a (slot 0
becomes empty), then register cam again with writer 3 — the slot-search
loop of `register_mp4_writer_for_stream` breaks at the now-empty slot 0
before reaching the existing cam entry in slot 1, so afterwards the
registry holds TWO live writers for cam (3 in slot 0, 2 in slot 1), and
writer 2 is neither detached nor closed. -/
theorem c1_duplicate_writers_for_same_stream :
    slotsFor "cam"
      (register_mp4_writer_for_stream none 0
        (unregister_mp4_writer_for_stream
          (register_mp4_writer_for_stream none 0
            (register_mp4_writer_for_stream none 0
              ⟨[none, none], ["", ""], [false, false]⟩ "a" 1).st
            "cam" 2).st
          "a").st
        "cam" 3).st = [3, 2] := by decide

/-- C3 counterexample: arming writer 2 for stream cam while writer 1 is
armed makes `register_mp4_writer_for_stream` close writer 1 itself
(`closed = [1]`) and return only the integer 0 — the previous writer is
never handed back to the caller, contradicting the claim that it is
detached and returned for the caller to close. -/
theorem c3_old_writer_closed_inside_registry :
    (register_mp4_writer_for_stream none 0 ⟨[some 1], ["cam"], [false]⟩
        "cam" 2).closed = [1] ∧
    (register_mp4_writer_for_stream none 0 ⟨[some 1], ["cam"], [false]⟩
        "cam" 2).ret = 0 := by decide

/-- C3 (amended): when stream s holds writer w1 in a slot that no empty
slot precedes, arming w2 replaces the slot content with w2, leaves the
name array unchanged, returns 0, and the registry itself closes w1
during the call (rather than returning it to the caller); afterwards
exactly w2 is referenced for s. -/
theorem register_replaces_and_closes_previous (cfg : Option StreamConfig)
    (maxPB : Int) (a b : List (Option Writer)) (p q : List String)
    (bufs : List Bool) (s : String) (w1 w2 : Writer)
    (hs : s ≠ "")
    (hlen : a.length = p.length)
    (ha : ∀ x ∈ a, x.isSome = true)
    (hp : ∀ n ∈ p, n ≠ s)
    (hq : ∀ n ∈ q, n ≠ s) :
    (register_mp4_writer_for_stream cfg maxPB
        ⟨a ++ some w1 :: b, p ++ s :: q, bufs⟩ s w2).ret = 0 ∧
    (register_mp4_writer_for_stream cfg maxPB
        ⟨a ++ some w1 :: b, p ++ s :: q, bufs⟩ s w2).closed = [w1] ∧
    (register_mp4_writer_for_stream cfg maxPB
        ⟨a ++ some w1 :: b, p ++ s :: q, bufs⟩ s w2).st =
      ⟨a ++ some w2 :: b, p ++ s :: q, bufs⟩ ∧
    slotsFor s (register_mp4_writer_for_stream cfg maxPB
        ⟨a ++ some w1 :: b, p ++ s :: q, bufs⟩ s w2).st = [w2] := by
  have hscan := scanSlots_prefix_match s hs a p w1 b q hlen ha hp
  have hset := set_append_length a (some w1) (some w2) b
  have hget := get?_append_length a (some w1) b
  have hlen' : a.length = p.length := hlen
  have hst : (register_mp4_writer_for_stream cfg maxPB
      ⟨a ++ some w1 :: b, p ++ s :: q, bufs⟩ s w2).st =
      ⟨a ++ some w2 :: b, p ++ s :: q, bufs⟩ := by
    simp only [register_mp4_writer_for_stream, hscan, hget, hset]
  refine ⟨?_, ?_, hst, ?_⟩
  · simp only [register_mp4_writer_for_stream, hscan]
  · simp only [register_mp4_writer_for_stream, hscan, hget]
  · rw [hst]
    show slotsForAux s (a ++ some w2 :: b) (p ++ s :: q) = [w2]
    rw [slotsForAux_append_skip s a p _ _ hlen hp]
    rw [show slotsForAux s (some w2 :: b) (s :: q) =
          if s ≠ "" ∧ s = s then w2 :: slotsForAux s b q
          else slotsForAux s b q from rfl]
    rw [if_pos ⟨hs, rfl⟩, slotsForAux_nil_of_no_match s b q hq]

/-- C3 witness: the amended theorem applied to a concrete registry with
writer 1 armed for cam in the only slot. -/
theorem register_replaces_and_closes_previous_witness :
    ("cam" ≠ "") ∧
    ((register_mp4_writer_for_stream none 0 ⟨[some 1], ["cam"], [false]⟩
        "cam" 2).ret = 0 ∧
     (register_mp4_writer_for_stream none 0 ⟨[some 1], ["cam"], [false]⟩
        "cam" 2).closed = [1] ∧
     (register_mp4_writer_for_stream none 0 ⟨[some 1], ["cam"], [false]⟩
        "cam" 2).st = ⟨[some 2], ["cam"], [false]⟩ ∧
     slotsFor "cam" (register_mp4_writer_for_stream none 0
        ⟨[some 1], ["cam"], [false]⟩ "cam" 2).st = [2]) :=
  ⟨by decide,
   register_replaces_and_closes_previous none 0 [] [] [] [] [false] "cam" 1 2
     (by decide) rfl (by simp) (by simp) (by simp)⟩

/-- C4 (code bug exhibited): unregistering stream cam from a registry
holding writer 1 and an allocated frame buffer in slot 0 removes the
registry entry (and closes nothing), but does NOT free the frame
buffer: the function clears the name array entry before running the
buffer search that is keyed on that very name array, so
`free_frame_buffer` is never reached — the buffer survives
(`buffers = [true]`, `freedIdx = none`), contradicting the destroy-on-
disable behaviour the spec states. -/
theorem c4_frame_buffer_not_freed_on_unregister :
    unregister_mp4_writer_for_stream ⟨[some 1], ["cam"], [true]⟩ "cam" =
      ⟨⟨[none], [""], [true]⟩, none⟩ := by decide

/-- C5: a fresh arm (the slot search finds an empty slot) for a stream
whose config has pre-roll seconds p greater than 0 and frame rate f
greater than 0 creates the pre-roll buffer with capacity
min (p * f) MAX_PREBUFFER_FRAMES — the product clamped to the
compile-time maximum. -/
theorem register_preroll_capacity_clamped (c : StreamConfig) (maxPB : Int)
    (st : RegState) (name : String) (w : Writer) (i : Nat)
    (hscan : scanSlots name st.writers st.names = .emptySlot i)
    (hpre : 0 < c.pre_detection_buffer) (hfps : 0 < c.fps) :
    (register_mp4_writer_for_stream (some c) maxPB st name w).createdCap =
      some (min (c.pre_detection_buffer * c.fps) maxPB) := by
  have hcap : 0 < c.pre_detection_buffer * c.fps := mul_pos hpre hfps
  simp only [register_mp4_writer_for_stream, hscan]
  rw [if_pos hpre, if_pos hcap]
  rcases lt_or_ge (c.pre_detection_buffer * c.fps) maxPB with h | h
  · rw [if_pos h, min_eq_left h.le]
  · rw [if_neg (not_lt.mpr h), min_eq_right h]

/-- C5 witness: arming a one-slot empty registry for a stream with 5
seconds of pre-roll at 10 fps under a cap of 100 creates a 50-frame
ring; under a cap of 30 the capacity clamps to 30. -/
theorem register_preroll_capacity_clamped_witness :
    (scanSlots "cam" [none] [""] = .emptySlot 0) ∧
    (0 : Int) < 5 ∧ (0 : Int) < 10 ∧
    (register_mp4_writer_for_stream (some sampleConfig) 100
        ⟨[none], [""], [false]⟩ "cam" 7).createdCap = some 50 ∧
    (register_mp4_writer_for_stream (some sampleConfig) 30
        ⟨[none], [""], [false]⟩ "cam" 7).createdCap = some 30 :=
  ⟨rfl, by decide, by decide,
   by
    have h := register_preroll_capacity_clamped sampleConfig 100
      ⟨[none], [""], [false]⟩ "cam" 7 0 rfl (by decide) (by decide)
    simpa using h,
   by
    have h := register_preroll_capacity_clamped sampleConfig 30
      ⟨[none], [""], [false]⟩ "cam" 7 0 rfl (by decide) (by decide)
    simpa using h⟩

/-!
## Helper lemmas: streams table
-/

/-- Finding in a concatenation when the first part has no hit. -/
theorem find?_append_of_none {α : Type} (p : α → Bool) (l l' : List α)
    (h : l.find? p = none) : (l ++ l').find? p = l'.find? p := by
  induction l with
  | nil => rfl
  | cons x l ih =>
    cases hx : p x with
    | true => simp [List.find?, hx] at h
    | false =>
      simp only [List.find?, hx] at h
      simp only [List.cons_append, List.find?, hx]
      exact ih h

/-- Under unique names, the row found by name is the (unique) member row
with that name. -/
theorem find?_name_unique (rows : List (Nat × StreamConfig)) (s : String)
    (hnodup : (rows.map (fun r => r.2.name)).Nodup)
    (r : Nat × StreamConfig) (hr : r ∈ rows) (hname : r.2.name = s) :
    rows.find? (fun x => x.2.name == s) = some r := by
  induction rows with
  | nil => cases hr
  | cons h rows ih =>
    rcases List.mem_cons.mp hr with rfl | hr'
    · exact List.find?_cons_of_pos _ (by simp [hname])
    · by_cases hh : h.2.name = s
      · exfalso
        have hmem : s ∈ rows.map (fun x => x.2.name) :=
          List.mem_map.mpr ⟨r, hr', hname⟩
        have hhead := (List.nodup_cons.mp hnodup).1
        exact hhead (by simpa [hh] using hmem)
      · have hh' : (h.2.name == s) = false := by simp [hh]
        simp only [List.find?, hh']
        exact ih (List.nodup_cons.mp hnodup).2 hr'

/-- Under unique names, after `add_stream_config` updates the disabled
row found for the new name, a name lookup returns exactly the updated
row. -/
theorem find?_name_after_update (rows : List (Nat × StreamConfig))
    (c : StreamConfig) (rid : Nat) (old : StreamConfig)
    (hnodup : (rows.map (fun r => r.2.name)).Nodup)
    (hfind : rows.find? (fun r => r.2.name == c.name && !r.2.enabled) =
      some (rid, old)) :
    (rows.map (fun r =>
        if r.1 = rid then (rid, { c with name := old.name }) else r)).find?
      (fun r => r.2.name == c.name) = some (rid, { c with name := old.name }) := by
  induction rows with
  | nil => simp at hfind
  | cons h rows ih =>
    cases hpred : (h.2.name == c.name && !h.2.enabled) with
    | true =>
      simp only [List.find?, hpred] at hfind
      have hh : h = (rid, old) := by injection hfind
      subst hh
      have hname : old.name = c.name := by
        have := (Bool.and_eq_true _ _).mp hpred
        exact eq_of_beq this.1
      simp only [List.map_cons, if_pos rfl]
      exact List.find?_cons_of_pos _ (by simp [hname])
    | false =>
      simp only [List.find?, hpred] at hfind
      have hmem : (rid, old) ∈ rows := List.mem_of_find?_eq_some hfind
      have hps := List.find?_some hfind
      simp only [Bool.and_eq_true] at hps
      have holdname : old.name = c.name := eq_of_beq hps.1
      have htail := (List.nodup_cons.mp hnodup).2
      have hrec := ih htail hfind
      by_cases hid : h.1 = rid
      · simp only [List.map_cons, if_pos hid]
        exact List.find?_cons_of_pos _ (by simp [holdname])
      · have hhname : h.2.name ≠ c.name := by
          intro hc
          have hmemname : c.name ∈ rows.map (fun x => x.2.name) :=
            List.mem_map.mpr ⟨(rid, old), hmem, holdname⟩
          have hhead := (List.nodup_cons.mp hnodup).1
          exact hhead (by simpa [hc] using hmemname)
        have hh' : (h.2.name == c.name) = false := by simp [hhname]
        simp only [List.map_cons, if_neg hid]
        simp only [List.find?, hh']
        exact hrec

/-!
## Claim theorems: streams table (C2, C10)
-/

/-- C2 counterexample: upserting a configuration whose name matches an
existing ENABLED row does not replace the row and does not return its id
— `add_stream_config` only looks for a disabled row, falls through to
INSERT, hits the UNIQUE(name) constraint and returns 0 (failure) with
the table unchanged, while the claim demands the existing id 1 with the
fields replaced. -/
theorem c2_enabled_upsert_fails :
    add_stream_config ⟨[(1, sampleConfig)], 2⟩
        { sampleConfig with url := "rtsp://new" } =
      (0, ⟨[(1, sampleConfig)], 2⟩) ∧ (0 : Nat) ≠ 1 := by decide

/-- C2 (amended): under unique names, `add_stream_config` behaves as a
conditional upsert — (a) when a DISABLED row with the same name exists,
every field except the name column is replaced from the new config
(including its enabled flag) and the existing id is returned; (b) when a
row with the same name exists but none of them is disabled, the INSERT
violates the UNIQUE(name) constraint and the operation fails returning 0
with the table unchanged; (c) when no row has the name, a fresh row is
inserted and its new id returned. -/
theorem add_stream_config_upsert_semantics (tbl : StreamsTable)
    (c : StreamConfig)
    (hnodup : (tbl.rows.map (fun r => r.2.name)).Nodup) :
    (∀ rid old,
        tbl.rows.find? (fun r => r.2.name == c.name && !r.2.enabled) =
            some (rid, old) →
          (add_stream_config tbl c).1 = rid ∧
          get_stream_config_by_name (add_stream_config tbl c).2 c.name =
            some { c with name := old.name })
  ∧ (tbl.rows.find? (fun r => r.2.name == c.name && !r.2.enabled) = none →
      tbl.rows.any (fun r => r.2.name == c.name) = true →
        add_stream_config tbl c = (0, tbl))
  ∧ (tbl.rows.any (fun r => r.2.name == c.name) = false →
      (add_stream_config tbl c).1 = tbl.nextId ∧
      (add_stream_config tbl c).2.rows = tbl.rows ++ [(tbl.nextId, c)] ∧
      get_stream_config_by_name (add_stream_config tbl c).2 c.name = some c) := by
  refine ⟨?_, ?_, ?_⟩
  · intro rid old hfind
    constructor
    · simp only [add_stream_config, hfind]
    · simp only [add_stream_config, hfind, get_stream_config_by_name]
      rw [find?_name_after_update tbl.rows c rid old hnodup hfind]
      rfl
  · intro hnone hany
    simp only [add_stream_config, hnone, hany]
    rfl
  · intro hany
    have hnomem : ∀ r ∈ tbl.rows, (r.2.name == c.name) = false := by
      intro r hr
      by_contra hc
      have : tbl.rows.any (fun r => r.2.name == c.name) = true :=
        List.any_eq_true.mpr ⟨r, hr, by simpa using hc⟩
      rw [hany] at this
      exact Bool.noConfusion this
    have hnone : tbl.rows.find?
        (fun r => r.2.name == c.name && !r.2.enabled) = none :=
      List.find?_eq_none.mpr (fun r hr => by simp [hnomem r hr])
    have hnamenone : tbl.rows.find? (fun r => r.2.name == c.name) = none :=
      List.find?_eq_none.mpr (fun r hr => by simp [hnomem r hr])
    have hadd : add_stream_config tbl c =
        (tbl.nextId, ⟨tbl.rows ++ [(tbl.nextId, c)], tbl.nextId + 1⟩) := by
      simp [add_stream_config, hnone, hany]
    refine ⟨?_, ?_, ?_⟩
    · rw [hadd]
    · rw [hadd]
    · rw [hadd]
      simp only [get_stream_config_by_name]
      rw [find?_append_of_none _ _ _ hnamenone]
      simp [List.find?]

/-- C2 witness: the amended theorem applied to a table holding the
disabled cam row with id 1 — upserting cam returns id 1 and the lookup
afterwards sees the new fields (the row re-enabled). -/
theorem add_stream_config_upsert_semantics_witness :
    ((([( (1 : Nat), { sampleConfig with enabled := false })] :
        List (Nat × StreamConfig)).map (fun r => r.2.name)).Nodup) ∧
    (add_stream_config ⟨[(1, { sampleConfig with enabled := false })], 2⟩
        sampleConfig).1 = 1 ∧
    get_stream_config_by_name
      (add_stream_config ⟨[(1, { sampleConfig with enabled := false })], 2⟩
        sampleConfig).2 "cam" = some sampleConfig := by
  have h := (add_stream_config_upsert_semantics
      ⟨[(1, { sampleConfig with enabled := false })], 2⟩ sampleConfig
      (by decide)).1 1 { sampleConfig with enabled := false } (by decide)
  exact ⟨by decide, h.1, h.2⟩

/-- C10: with the database handle and the name present and names unique,
`is_stream_eligible_for_live_streaming` returns 1 exactly when a row
with that name exists with both `enabled` and `streaming_enabled` set,
returns 0 when no row has the name (rather than an error), and never
returns -1 (the -1 outcome is reserved for a NULL database handle or a
NULL name, i.e. database failure). -/
theorem is_stream_eligible_iff (tbl : StreamsTable) (s : String)
    (hnodup : (tbl.rows.map (fun r => r.2.name)).Nodup) :
    (is_stream_eligible_for_live_streaming (some tbl) (some s) = 1 ↔
        ∃ r ∈ tbl.rows, r.2.name = s ∧ r.2.enabled = true ∧
          r.2.streaming_enabled = true)
  ∧ ((∀ r ∈ tbl.rows, r.2.name ≠ s) →
      is_stream_eligible_for_live_streaming (some tbl) (some s) = 0)
  ∧ is_stream_eligible_for_live_streaming (some tbl) (some s) ≠ -1 := by
  simp only [is_stream_eligible_for_live_streaming]
  cases hf : tbl.rows.find? (fun r => r.2.name == s) with
  | none =>
    have hno : ∀ r ∈ tbl.rows, ¬(r.2.name = s) := by
      intro r hr hc
      have := List.find?_eq_none.mp hf r hr
      simp [hc] at this
    refine ⟨?_, fun _ => rfl, by decide⟩
    constructor
    · intro h; exact absurd h (by decide)
    · rintro ⟨r, hr, hname, -, -⟩
      exact absurd hname (hno r hr)
  | some r =>
    have hps := List.find?_some hf
    have hrname : r.2.name = s := eq_of_beq hps
    have hrmem : r ∈ tbl.rows := List.mem_of_find?_eq_some hf
    dsimp only
    by_cases hflag : (r.2.enabled && r.2.streaming_enabled) = true
    · rw [if_pos hflag]
      have hfl := (Bool.and_eq_true _ _).mp hflag
      refine ⟨?_, ?_, by decide⟩
      · exact ⟨fun _ => ⟨r, hrmem, hrname, hfl.1, hfl.2⟩, fun _ => rfl⟩
      · intro hall
        exact absurd hrname (hall r hrmem)
    · rw [if_neg hflag]
      refine ⟨?_, fun _ => rfl, by decide⟩
      constructor
      · intro h; exact absurd h (by decide)
      · rintro ⟨r', hr', hname', hen', hst'⟩
        have := find?_name_unique tbl.rows s hnodup r' hr' hname'
        rw [hf] at this
        have hrr : r = r' := by injection this
        rw [← hrr] at hen' hst'
        rw [hen', hst'] at hflag
        exact absurd rfl hflag

/-- C10 witness: the theorem applied to the one-row cam table — cam
(enabled, streaming enabled) is eligible, and a missing name yields 0. -/
theorem is_stream_eligible_iff_witness :
    ((([((1 : Nat), sampleConfig)] :
        List (Nat × StreamConfig)).map (fun r => r.2.name)).Nodup) ∧
    is_stream_eligible_for_live_streaming
        (some ⟨[(1, sampleConfig)], 2⟩) (some "cam") = 1 ∧
    is_stream_eligible_for_live_streaming
        (some ⟨[(1, sampleConfig)], 2⟩) (some "nope") = 0 :=
  ⟨by decide,
   (is_stream_eligible_iff ⟨[(1, sampleConfig)], 2⟩ "cam" (by decide)).1.mpr
     ⟨(1, sampleConfig), by decide, rfl, rfl, rfl⟩,
   (is_stream_eligible_iff ⟨[(1, sampleConfig)], 2⟩ "nope" (by decide)).2.1
     (by decide)⟩

/-!
## Claim theorems: timeline manifest and time parsing (C6, C7)
-/

/-- C6 counterexample: for two catalog segments in range, the manifest
contains ONE media entry, not one descriptor per segment —
`create_timeline_manifest` always writes a single EXTINF/URI pair for
the whole timeline, contradicting the claim that it concatenates one
segment descriptor per catalog segment. -/
theorem c6_manifest_single_entry_for_two_segments :
    ((create_timeline_manifest
        [⟨1, "cam", "/r/a.mp4", 100, 160, 5, false⟩,
         ⟨2, "cam", "/r/b.mp4", 160, 220, 5, false⟩] 120).map
      (fun m => m.entries.length)) = some 1 ∧ (1 : Nat) ≠ 2 := by decide

/-- C6 (amended): for every non-empty segment list, the manifest is an
HLS playlist whose target duration is the maximum single-segment
duration (over the first `MAX_MANIFEST_SEGMENTS` segments) plus one, and
whose body is exactly ONE media entry — an EXTINF of that maximum
duration and a URI addressing the timeline playback endpoint with the
first segment's stream name and the requested start time — terminated by
ENDLIST; per-segment descriptors are not emitted. -/
theorem create_timeline_manifest_single_entry (s0 : TimelineSegment)
    (rest : List TimelineSegment) (t : Int) :
    create_timeline_manifest (s0 :: rest) t =
      some ⟨3, 0, true,
            maxSegmentDuration ((s0 :: rest).take MAX_MANIFEST_SEGMENTS) + 1,
            [⟨maxSegmentDuration ((s0 :: rest).take MAX_MANIFEST_SEGMENTS),
              s0.stream_name, t⟩], true⟩ := rfl

/-- C7 counterexample: on a server one hour east of UTC
(`gmtoff = 3600`), the handler converts 2024-01-02T03:04:05 to epoch
1704161045, while the UTC interpretation of the same string is
1704164645 — the query parameter depends on the server timezone,
contradicting the claim that the string is interpreted as UTC. -/
theorem c7_time_param_depends_on_timezone :
    timeline_parse_time_param 3600 "2024-01-02T03:04:05" = some 1704161045 ∧
    specUtcEpochOfString "2024-01-02T03:04:05" = some 1704164645 ∧
    (1704161045 : Int) ≠ 1704164645 := by decide

/-- C7 (amended): the handler interprets the wall-clock string as
server-LOCAL time (`strptime` followed by `mktime` with
`tm_isdst = -1`): whenever the UTC interpretation of the string is `e`,
the value the handler produces is `e` minus the server timezone offset —
equal to the UTC epoch only when the server runs at UTC. -/
theorem timeline_time_param_is_local_epoch (gmtoff : Int) (s : String)
    (e : Int) (h : specUtcEpochOfString s = some e) :
    timeline_parse_time_param gmtoff s = some (e - gmtoff) := by
  unfold specUtcEpochOfString at h
  unfold timeline_parse_time_param mktimeModel
  cases hp : parseTm s with
  | none => rw [hp] at h; exact absurd h (by simp)
  | some tm =>
    rw [hp] at h
    have he : utcEpochOfTm tm = e := by simpa using h
    simp [he]

/-- C7 witness: the amended theorem applied to the concrete string and a
server one hour east of UTC. -/
theorem timeline_time_param_is_local_epoch_witness :
    specUtcEpochOfString "2024-01-02T03:04:05" = some 1704164645 ∧
    timeline_parse_time_param 3600 "2024-01-02T03:04:05" =
      some (1704164645 - 3600) :=
  ⟨by decide,
   timeline_time_param_is_local_epoch 3600 "2024-01-02T03:04:05" 1704164645
     (by decide)⟩

/-!
## Helper lemmas: playback request-active table
-/

/-- Unfolding of `is_request_active` on a cons cell. -/
theorem is_request_active_cons (s : ActiveSlot) (rest : List ActiveSlot)
    (id : Nat) :
    is_request_active (s :: rest) id =
      ((s.id == id && s.active) || is_request_active rest id) := by
  simp [is_request_active]

/-- Active ids of a cons cell with an active head. -/
theorem activeIds_cons_active (s : ActiveSlot) (rest : List ActiveSlot)
    (h : s.active = true) :
    activeIds (s :: rest) = s.id :: activeIds rest := by
  simp [activeIds, h]

/-- Active ids of a cons cell with an inactive head. -/
theorem activeIds_cons_inactive (s : ActiveSlot) (rest : List ActiveSlot)
    (h : s.active = false) :
    activeIds (s :: rest) = activeIds rest := by
  simp [activeIds, List.filter_cons, h]

/-- Membership in the active-id list is exactly `is_request_active`. -/
theorem mem_activeIds_iff (t : List ActiveSlot) (id : Nat) :
    id ∈ activeIds t ↔ is_request_active t id = true := by
  induction t with
  | nil => simp [activeIds, is_request_active]
  | cons s rest ih =>
    rw [is_request_active_cons]
    cases hs : s.active with
    | true =>
      rw [activeIds_cons_active _ _ hs, Bool.and_true, List.mem_cons,
        Bool.or_eq_true, beq_iff_eq, ih]
      constructor
      · rintro (h | h)
        · exact Or.inl h.symm
        · exact Or.inr h
      · rintro (h | h)
        · exact Or.inl h.symm
        · exact Or.inr h
    | false =>
      rw [activeIds_cons_inactive _ _ hs]
      simp [ih, hs]

/-- Every active id after the free-slot scan is the new id or was active
before. -/
theorem activeIds_markActiveAux_subset (id : Nat) (t t' : List ActiveSlot)
    (hm : markActiveAux id t = some t') :
    ∀ x ∈ activeIds t', x = id ∨ x ∈ activeIds t := by
  induction t generalizing t' with
  | nil => simp [markActiveAux] at hm
  | cons s rest ih =>
    cases hs : s.active with
    | false =>
      simp only [markActiveAux, hs, Bool.not_false, if_pos] at hm
      have ht' : (⟨id, true⟩ : ActiveSlot) :: rest = t' := by
        injection hm
      subst ht'
      intro x hx
      rw [activeIds_cons_active _ _ rfl] at hx
      rcases List.mem_cons.mp hx with rfl | hx'
      · exact Or.inl rfl
      · exact Or.inr (by rw [activeIds_cons_inactive _ _ hs]; exact hx')
    | true =>
      simp only [markActiveAux, hs, Bool.not_true, if_neg, Bool.false_eq_true,
        not_false_eq_true, Option.map_eq_some'] at hm
      obtain ⟨t'', hm'', rfl⟩ := hm
      intro x hx
      rw [activeIds_cons_active _ _ hs] at hx
      rcases List.mem_cons.mp hx with rfl | hx'
      · exact Or.inr (by rw [activeIds_cons_active _ _ hs]; exact List.mem_cons_self _ _)
      · rcases ih t'' hm'' x hx' with h | h
        · exact Or.inl h
        · exact Or.inr (by rw [activeIds_cons_active _ _ hs]; exact List.mem_cons_of_mem _ h)

/-- The free-slot scan preserves the no-duplicate invariant when the id
was not already active. -/
theorem dupFree_markActiveAux (id : Nat) (t t' : List ActiveSlot)
    (hna : is_request_active t id = false) (hd : dupFree t)
    (hm : markActiveAux id t = some t') : dupFree t' := by
  induction t generalizing t' with
  | nil => simp [markActiveAux] at hm
  | cons s rest ih =>
    rw [is_request_active_cons] at hna
    have hparts := Bool.or_eq_false_iff.mp hna
    cases hs : s.active with
    | false =>
      simp only [markActiveAux, hs, Bool.not_false, if_pos] at hm
      have ht' : (⟨id, true⟩ : ActiveSlot) :: rest = t' := by
        injection hm
      subst ht'
      rw [dupFree, activeIds_cons_active _ _ rfl]
      refine List.nodup_cons.mpr ⟨?_, ?_⟩
      · intro hmem
        have := (mem_activeIds_iff rest id).mp hmem
        rw [hparts.2] at this
        exact Bool.noConfusion this
      · rw [dupFree, activeIds_cons_inactive _ _ hs] at hd
        exact hd
    | true =>
      simp only [markActiveAux, hs, Bool.not_true, if_neg, Bool.false_eq_true,
        not_false_eq_true, Option.map_eq_some'] at hm
      obtain ⟨t'', hm'', rfl⟩ := hm
      rw [dupFree, activeIds_cons_active _ _ hs] at hd ⊢
      have hd' := List.nodup_cons.mp hd
      refine List.nodup_cons.mpr ⟨?_, ih t'' hparts.2 hd'.2 hm''⟩
      intro hmem
      rcases activeIds_markActiveAux_subset id rest t'' hm'' _ hmem with h | h
      · have hone := hparts.1
        rw [hs, Bool.and_true] at hone
        have : s.id ≠ id := by simpa using hone
        exact this h
      · exact hd'.1 h

/-- Marking a request active preserves the no-duplicate invariant. -/
theorem dupFree_mark_request_active (t : List ActiveSlot) (id : Nat)
    (hd : dupFree t) : dupFree (mark_request_active t id).2 := by
  unfold mark_request_active
  cases hact : is_request_active t id with
  | true => simpa [hact] using hd
  | false =>
    cases hm : markActiveAux id t with
    | none => simpa [hact, hm] using hd
    | some t' =>
      simpa [hact, hm] using dupFree_markActiveAux id t t' hact hd hm

/-- Clearing a request only removes active ids. -/
theorem activeIds_mark_inactive_sublist (t : List ActiveSlot) (id : Nat) :
    (activeIds (mark_request_inactive t id)).Sublist (activeIds t) := by
  induction t with
  | nil => simp [mark_request_inactive]
  | cons s rest ih =>
    cases hcond : (s.id == id && s.active) with
    | true =>
      simp only [mark_request_inactive, hcond, if_pos]
      rw [activeIds_cons_inactive _ _ rfl]
      have hs := ((Bool.and_eq_true _ _).mp hcond).2
      rw [activeIds_cons_active _ _ hs]
      exact List.sublist_cons_self _ _
    | false =>
      simp only [mark_request_inactive, hcond, Bool.false_eq_true,
        not_false_eq_true, if_neg]
      cases hs : s.active with
      | true =>
        rw [activeIds_cons_active _ _ hs, activeIds_cons_active _ _ hs]
        exact ih.cons₂ _
      | false =>
        rw [activeIds_cons_inactive _ _ hs, activeIds_cons_inactive _ _ hs]
        exact ih

/-- Marking a request inactive preserves the no-duplicate invariant. -/
theorem dupFree_mark_request_inactive (t : List ActiveSlot) (id : Nat)
    (hd : dupFree t) : dupFree (mark_request_inactive t id) :=
  List.Nodup.sublist (activeIds_mark_inactive_sublist t id) hd

/-- The all-zero initial table has no duplicate active ids. -/
theorem dupFree_init : dupFree init_active_requests := by
  show (activeIds init_active_requests).Nodup
  decide

/-- Every table reachable from the initial table through the two
mutations keeps the no-duplicate invariant. -/
theorem dupFree_applyReqOps (ops : List ReqOp) (t : List ActiveSlot)
    (hd : dupFree t) : dupFree (applyReqOps t ops) := by
  induction ops generalizing t with
  | nil => simpa [applyReqOps] using hd
  | cons op ops ih =>
    rw [applyReqOps, List.foldl_cons]
    apply ih
    cases op with
    | markActive id => exact dupFree_mark_request_active t id hd
    | markInactive id => exact dupFree_mark_request_inactive t id hd

/-- After clearing an id from a duplicate-free table, the id is no
longer active. -/
theorem not_active_after_mark_inactive (t : List ActiveSlot) (id : Nat)
    (hd : dupFree t) :
    is_request_active (mark_request_inactive t id) id = false := by
  induction t with
  | nil => rfl
  | cons s rest ih =>
    cases hcond : (s.id == id && s.active) with
    | true =>
      simp only [mark_request_inactive, hcond, if_pos]
      have hand := (Bool.and_eq_true _ _).mp hcond
      have hsid : s.id = id := by simpa using hand.1
      rw [dupFree, activeIds_cons_active _ _ hand.2] at hd
      have hnotmem := (List.nodup_cons.mp hd).1
      rw [hsid] at hnotmem
      have hrest : is_request_active rest id = false := by
        cases h : is_request_active rest id with
        | false => rfl
        | true => exact absurd ((mem_activeIds_iff rest id).mpr h) hnotmem
      rw [is_request_active_cons]
      simp [hrest]
    | false =>
      simp only [mark_request_inactive, hcond, Bool.false_eq_true,
        not_false_eq_true, if_neg]
      rw [is_request_active_cons, hcond]
      simp only [Bool.false_or]
      apply ih
      cases hs : s.active with
      | true =>
        rw [dupFree, activeIds_cons_active _ _ hs] at hd
        exact (List.nodup_cons.mp hd).2
      | false =>
        rw [dupFree, activeIds_cons_inactive _ _ hs] at hd
        exact hd

/-!
## Claim theorems: playback deduplication and 404 semantics (C8, C9)
-/

/-- C8: over every sequence of table mutations starting from the zeroed
table, the active-requests table never holds two active entries with the
same id; while an id is active, a further `mark_request_active` for it
returns false with the table unchanged, and the playback handler rejects
the request (429) without touching the catalog or the file; and the
playback task — whatever its outcome — leaves the id inactive. -/
theorem playback_request_dedup (ops : List ReqOp) (id : Nat)
    (env : PlaybackEnv) (hid : id ≠ 0) :
    dupFree (applyReqOps init_active_requests ops)
  ∧ (is_request_active (applyReqOps init_active_requests ops) id = true →
      mark_request_active (applyReqOps init_active_requests ops) id =
        (false, applyReqOps init_active_requests ops)
      ∧ mg_handle_play_recording (applyReqOps init_active_requests ops)
          true id =
          (.alreadyProcessing, applyReqOps init_active_requests ops))
  ∧ is_request_active
      (playback_recording_task_function env
        (applyReqOps init_active_requests ops) id).2 id = false := by
  have hd := dupFree_applyReqOps ops init_active_requests dupFree_init
  refine ⟨hd, ?_, ?_⟩
  · intro hact
    constructor
    · simp [mark_request_active, hact]
    · simp [mg_handle_play_recording, hid, hact]
  · have h := not_active_after_mark_inactive
      (applyReqOps init_active_requests ops) id hd
    obtain ⟨cv, cc, row, fd⟩ := env
    cases cv <;> cases cc <;> cases row <;> cases fd <;>
      simpa [playback_recording_task_function] using h

/-- C8 witness: the theorem applied after activating id 5 from the
initial table — id 5 is active, and a second activation is refused with
the table unchanged. -/
theorem playback_request_dedup_witness :
    (5 : Nat) ≠ 0 ∧
    is_request_active (applyReqOps init_active_requests
      [ReqOp.markActive 5]) 5 = true ∧
    mark_request_active (applyReqOps init_active_requests
      [ReqOp.markActive 5]) 5 =
      (false, applyReqOps init_active_requests [ReqOp.markActive 5]) :=
  ⟨by decide, by decide,
   ((playback_request_dedup [ReqOp.markActive 5] 5
      ⟨true, false, none, false⟩ (by decide)).2.1 (by decide)).1⟩

/-- C9: on a valid, non-closing connection, the playback task replies
404 exactly when the catalog has no row for the id or the row's file is
missing on disk (get_recording_metadata_by_id modelled from the spec as
returning the row exactly when it exists); in either of those cases no
file content is served. -/
theorem playback_404_iff_not_found (env : PlaybackEnv) (t : List ActiveSlot)
    (id : Nat) (hc : env.connValid = true) (hcl : env.connClosing = false) :
    ((playback_recording_task_function env t id).1 = .notFound ↔
      (env.recordingRow = none ∨ env.fileOnDisk = false))
  ∧ ((env.recordingRow = none ∨ env.fileOnDisk = false) →
      ∀ p, (playback_recording_task_function env t id).1 ≠ .serveFile p) := by
  obtain ⟨cv, cc, row, fd⟩ := env
  dsimp only at hc hcl
  subst hc
  subst hcl
  cases row <;> cases fd <;> simp [playback_recording_task_function]

/-- C9 witness: the theorem applied to a concrete environment with no
catalog row for the id — the task replies 404 and serves nothing. -/
theorem playback_404_iff_not_found_witness :
    ((⟨true, false, none, false⟩ : PlaybackEnv).connValid = true) ∧
    ((⟨true, false, none, false⟩ : PlaybackEnv).connClosing = false) ∧
    (playback_recording_task_function ⟨true, false, none, false⟩
        init_active_requests 5).1 = .notFound :=
  ⟨rfl, rfl,
   (playback_404_iff_not_found ⟨true, false, none, false⟩
      init_active_requests 5 rfl rfl).1.mpr (Or.inl rfl)⟩

end LightNVR
